import Mathlib

/-!
Shallow embedding of the extproc header-interception service.

The repository contains two revisions of the same Envoy/Gloo external
processor written in Go:

* `src/main.go` — the full pipeline (`processRequestHeaders`) with an
  identification stamp, a header-extraction pass, path-conditional
  appends, an authorization security gate, and a directive decoder
  (`parseInstructions`), plus a stream dispatcher (`Process`) that
  answers every event.
* `src/unnamed/part_000` — a minimal revision whose dispatcher only
  answers request-header events and whose single mutation is a
  `SetHeaders` entry with `OVERWRITE_IF_EXISTS_OR_ADD`.

Both are embedded below; `Main` holds `main.go`, `Part0` holds
`part_000`.
-/

/-- Embedding of the Go function `strings.Contains s substr`: substring
containment, `true` when `substr` occurs anywhere in `s` (the empty string
is contained in every string). -/
def strings.Contains (s substr : String) : Bool :=
  decide (substr.data <:+: s.data)

/-- Embedding of the Go function `strings.ToLower`, character by character
(the pipeline only ever compares ASCII names, where Go and Lean lowercasing
agree). -/
def strings.ToLower (s : String) : String :=
  ⟨s.data.map Char.toLower⟩

/-- Embedding of `HeaderValue` from the envoy protobuf types: one header entry. -/
structure HeaderValue where
  key : String
  value : String
deriving DecidableEq, Repr

namespace Main

/-- Embedding of `HeaderMutation` as used by `src/main.go`: the `Action` one-of with the
`Append` and `Remove` cases the file constructs. -/
inductive HeaderMutation where
  | append (header : HeaderValue)
  | remove (key : String)
deriving DecidableEq, Repr

/-- Embedding of the `CommonResponse.Status` values used by the source. -/
inductive CommonStatus where
  | CONTINUE
deriving DecidableEq, Repr

/-- Embedding of `ImmediateResponse`: status code, extra headers, body. -/
structure ImmediateResponse where
  status : Nat
  headers : List HeaderValue
  body : String
deriving DecidableEq, Repr

/-- Embedding of the `ProcessingResponse` one-of as constructed by `src/main.go`: either a
request-headers response wrapping a `CommonResponse` (status plus ordered
header mutations) or an immediate response. -/
inductive ProcessingResponse where
  | requestHeaders (status : CommonStatus) (headerMutation : List HeaderMutation)
  | immediate (response : ImmediateResponse)
deriving DecidableEq, Repr

/-- The three values captured by the extraction loop in
`processRequestHeaders` (`instructionsValue`, `requestPath`, `hasAuth`),
zero-initialized as in Go. -/
structure Extracted where
  instructionsValue : String
  requestPath : String
  hasAuth : Bool
deriving DecidableEq, Repr

/-- One iteration of the extraction loop (`src/main.go` lines 90-107):
`switch strings.ToLower(header.Key)` over the three recognized names. -/
def extractStep (acc : Extracted) (header : HeaderValue) : Extracted :=
  if strings.ToLower header.key = "instructions" then
    { acc with instructionsValue := header.value }
  else if strings.ToLower header.key = ":path" then
    { acc with requestPath := header.value }
  else if strings.ToLower header.key = "authorization" then
    { acc with hasAuth := true }
  else
    acc

/-- The whole extraction pass: a single left-to-right fold over the header
sequence starting from the Go zero values. -/
def extractHeaders (headers : List HeaderValue) : Extracted :=
  headers.foldl extractStep ⟨"", "", false⟩

/-- Embedding of `parseInstructions` (`src/main.go` lines 181-240): string-based
recognition of a fixed vocabulary of literal substrings. -/
def parseInstructions (instructionsJSON : String) : List HeaderMutation :=
  let mutations : List HeaderMutation := []
  let mutations :=
    if strings.Contains instructionsJSON "\"header3\":\"value3\"" then
      mutations ++ [HeaderMutation.append ⟨"header3", "value3"⟩]
    else mutations
  let mutations :=
    if strings.Contains instructionsJSON "\"header4\":\"value4\"" then
      mutations ++ [HeaderMutation.append ⟨"header4", "value4"⟩]
    else mutations
  let mutations :=
    if strings.Contains instructionsJSON "\"removeHeaders\"" then
      let mutations :=
        if strings.Contains instructionsJSON "\"header2\"" then
          mutations ++ [HeaderMutation.remove "header2"]
        else mutations
      let mutations :=
        if strings.Contains instructionsJSON "\"instructions\"" then
          mutations ++ [HeaderMutation.remove "instructions"]
        else mutations
      mutations
    else mutations
  mutations

/-- The identification stamp appended unconditionally at stage 1. -/
def stampMutation : HeaderMutation :=
  HeaderMutation.append ⟨"x-processed-by", "eag-extproc-service"⟩

/-- Body of the 401 immediate response produced by the security gate. -/
def unauthorizedBody : String := "\x7b\"error\": \"Authorization required\"\x7d"

/-- The exact immediate response returned by the security gate
(`src/main.go` lines 136-157). -/
def unauthorizedResponse : ImmediateResponse :=
  ⟨401, [⟨"content-type", "application/json"⟩], unauthorizedBody⟩

/-- Embedding of `processRequestHeaders` (`src/main.go` lines 67-177): stamp, extraction,
path-conditional appends, security gate, dynamic directive stage. -/
def processRequestHeaders (headers : List HeaderValue) : ProcessingResponse :=
  let ext := extractHeaders headers
  let m1 : List HeaderMutation := [stampMutation]
  let m2 :=
    if strings.Contains ext.requestPath "/api/v1" then
      m1 ++ [HeaderMutation.append ⟨"x-api-version", "v1"⟩]
    else m1
  let m3 :=
    if strings.Contains ext.requestPath "/admin" then
      m2 ++ [HeaderMutation.append ⟨"x-admin-access", "true"⟩]
    else m2
  if strings.Contains ext.requestPath "/protected" && !ext.hasAuth then
    ProcessingResponse.immediate unauthorizedResponse
  else
    let m4 :=
      if ext.instructionsValue ≠ "" then m3 ++ parseInstructions ext.instructionsValue
      else m3
    ProcessingResponse.requestHeaders CommonStatus.CONTINUE m4

/-- Embedding of the `ProcessingRequest` one-of: the event kinds of the external-processing
protocol.  Only `requestHeaders` carries data the dispatcher looks at. -/
inductive ProcessingRequest where
  | requestHeaders (headers : List HeaderValue)
  | requestBody
  | requestTrailers
  | responseHeaders
  | responseBody
  | responseTrailers
deriving DecidableEq, Repr

/-- The fixed response the dispatcher of `main.go` sends for every event that is
not a request-headers event: an immediate response with
`StatusCode_Continue` (100), no headers, no body. -/
def defaultContinueResponse : ProcessingResponse :=
  ProcessingResponse.immediate ⟨100, [], ""⟩

/-- The per-event dispatch of `Process` (`src/main.go` lines 38-62):
request-headers events go through the pipeline, everything else gets the
fixed continue response. -/
def respond (req : ProcessingRequest) : ProcessingResponse :=
  match req with
  | ProcessingRequest.requestHeaders hs => processRequestHeaders hs
  | _ => defaultContinueResponse

/-- The receive/respond loop of `Process` over a finished stream of events
(transport errors aside): one response per received event, in order. -/
def processStream : List ProcessingRequest → List ProcessingResponse
  | [] => []
  | req :: rest => respond req :: processStream rest

end Main

namespace Part0

/-- Embedding of the `HeaderValueOption.AppendAction` values used by `part_000`. -/
inductive AppendAction where
  | OVERWRITE_IF_EXISTS_OR_ADD
deriving DecidableEq, Repr

/-- Embedding of `corev3.HeaderValueOption`: a header plus its append action. -/
structure HeaderValueOption where
  header : HeaderValue
  appendAction : AppendAction
deriving DecidableEq, Repr

/-- Embedding of `HeaderMutation` as used by `part_000`: the `SetHeaders` list. -/
structure HeaderMutation where
  setHeaders : List HeaderValueOption
deriving DecidableEq, Repr

/-- Embedding of `ProcessingResponse` as constructed by `part_000`. -/
inductive ProcessingResponse where
  | requestHeaders (headerMutation : HeaderMutation)
deriving DecidableEq, Repr

/-- Embedding of `addProcessedByHeader` (`src/unnamed/part_000`): one `SetHeaders` entry
`x-processed-by: ext-proc-go-server` with `OVERWRITE_IF_EXISTS_OR_ADD`,
ignoring the incoming headers. -/
def addProcessedByHeader (_headers : List HeaderValue) : ProcessingResponse :=
  ProcessingResponse.requestHeaders
    ⟨[⟨⟨"x-processed-by", "ext-proc-go-server"⟩, AppendAction.OVERWRITE_IF_EXISTS_OR_ADD⟩]⟩

/-- The per-event dispatch of the `Process` loop of `part_000`: request-headers
events are answered, every other event kind is ignored (no response at
all). -/
def respondOpt (req : Main.ProcessingRequest) : Option ProcessingResponse :=
  match req with
  | Main.ProcessingRequest.requestHeaders hs => some (addProcessedByHeader hs)
  | _ => none

/-- The receive/respond loop of `part_000` over a finished stream of events:
non-header events produce no outbound message. -/
def processStream : List Main.ProcessingRequest → List ProcessingResponse
  | [] => []
  | req :: rest =>
      match respondOpt req with
      | some resp => resp :: processStream rest
      | none => processStream rest

end Part0

/-! Helper lemmas shared by several claim theorems. -/

/-- Normal form of the pipeline: gate branch, or the continue response with
the mutation list written as explicit ordered segments. -/
theorem Main.processRequestHeaders_normal (hs : List HeaderValue) :
    Main.processRequestHeaders hs =
      if strings.Contains (Main.extractHeaders hs).requestPath "/protected" &&
          !(Main.extractHeaders hs).hasAuth then
        Main.ProcessingResponse.immediate Main.unauthorizedResponse
      else
        Main.ProcessingResponse.requestHeaders Main.CommonStatus.CONTINUE
          ([Main.stampMutation] ++
            (if strings.Contains (Main.extractHeaders hs).requestPath "/api/v1" then
              [Main.HeaderMutation.append ⟨"x-api-version", "v1"⟩] else []) ++
            (if strings.Contains (Main.extractHeaders hs).requestPath "/admin" then
              [Main.HeaderMutation.append ⟨"x-admin-access", "true"⟩] else []) ++
            (if (Main.extractHeaders hs).instructionsValue ≠ "" then
              Main.parseInstructions (Main.extractHeaders hs).instructionsValue else [])) := by
  unfold Main.processRequestHeaders
  by_cases h1 : strings.Contains (Main.extractHeaders hs).requestPath "/api/v1" = true <;>
  by_cases h2 : strings.Contains (Main.extractHeaders hs).requestPath "/admin" = true <;>
  by_cases h3 : (Main.extractHeaders hs).instructionsValue ≠ "" <;>
  simp [h1, h2, h3]

/-- The dispatcher loop is a map of the per-event dispatch. -/
theorem Main.processStream_eq_map (reqs : List Main.ProcessingRequest) :
    Main.processStream reqs = reqs.map Main.respond := by
  induction reqs with
  | nil => rfl
  | cons r rest ih => simp [Main.processStream, ih]

/-- Value of the last header whose lowercased key is `key`, or the empty
string when there is none. -/
def lastValueOf (key : String) (headers : List HeaderValue) : String :=
  match headers.reverse.find? (fun h => strings.ToLower h.key == key) with
  | some h => h.value
  | none => ""

/-- True when some header has lowercased key `key`. -/
def hasKeyCI (key : String) (headers : List HeaderValue) : Bool :=
  headers.any (fun h => strings.ToLower h.key == key)

theorem lastValueOf_concat (key : String) (hs : List HeaderValue) (h : HeaderValue) :
    lastValueOf key (hs ++ [h]) =
      if strings.ToLower h.key == key then h.value else lastValueOf key hs := by
  unfold lastValueOf
  rw [List.reverse_append]
  cases hk : (strings.ToLower h.key == key) <;> simp [List.find?_cons, hk]

theorem hasKeyCI_concat (key : String) (hs : List HeaderValue) (h : HeaderValue) :
    hasKeyCI key (hs ++ [h]) = (hasKeyCI key hs || (strings.ToLower h.key == key)) := by
  simp [hasKeyCI]

theorem Main.extractHeaders_concat (hs : List HeaderValue) (h : HeaderValue) :
    Main.extractHeaders (hs ++ [h]) = Main.extractStep (Main.extractHeaders hs) h := by
  simp [Main.extractHeaders, List.foldl_append]

/-- Characterization of the extraction pass: each string capture is the
value of the last matching header, and the authorization capture is the
presence of any matching header. -/
theorem Main.extractHeaders_spec (hs : List HeaderValue) :
    Main.extractHeaders hs =
      ⟨lastValueOf "instructions" hs, lastValueOf ":path" hs, hasKeyCI "authorization" hs⟩ := by
  induction hs using List.reverseRecOn with
  | nil => rfl
  | append_singleton hs h ih =>
    rw [Main.extractHeaders_concat, ih]
    rw [lastValueOf_concat, lastValueOf_concat, hasKeyCI_concat]
    unfold Main.extractStep
    by_cases hi : strings.ToLower h.key = "instructions"
    · simp +decide [hi]
    · by_cases hp : strings.ToLower h.key = ":path"
      · simp +decide [hi, hp]
      · by_cases ha : strings.ToLower h.key = "authorization"
        · simp +decide [hi, hp, ha]
        · simp [hi, hp, ha]

/-- C1: the pipeline returns a terminal (immediate) outcome iff the captured
path contains "/protected" and no authorization header was present, and any
terminal outcome is exactly the fixed 401 response, whose header list is
exactly the single content-type entry, so no stage 1-3 mutation appears in
it. -/
theorem terminal_outcome_characterization (hs : List HeaderValue) :
    ((∃ r, Main.processRequestHeaders hs = Main.ProcessingResponse.immediate r) ↔
      (strings.Contains (Main.extractHeaders hs).requestPath "/protected" = true ∧
        (Main.extractHeaders hs).hasAuth = false)) ∧
    (∀ r, Main.processRequestHeaders hs = Main.ProcessingResponse.immediate r →
      r = Main.unauthorizedResponse) := by
  rw [Main.processRequestHeaders_normal]
  by_cases hg : (strings.Contains (Main.extractHeaders hs).requestPath "/protected" &&
      !(Main.extractHeaders hs).hasAuth) = true
  · rw [if_pos hg]
    simp only [Bool.and_eq_true, Bool.not_eq_true'] at hg
    constructor
    · exact ⟨fun _ => hg, fun _ => ⟨_, rfl⟩⟩
    · intro r h
      exact (Main.ProcessingResponse.immediate.injEq _ _).mp h.symm
  · rw [if_neg hg]
    simp only [Bool.and_eq_true, Bool.not_eq_true'] at hg
    constructor
    · constructor
      · rintro ⟨r, hr⟩
        exact absurd hr (by simp)
      · intro hc
        exact absurd hc hg
    · intro r h
      exact absurd h (by simp)

theorem terminal_outcome_characterization_witness :
    Main.processRequestHeaders [⟨":path", "/protected"⟩] =
      Main.ProcessingResponse.immediate Main.unauthorizedResponse := by
  obtain ⟨r, hr⟩ := (terminal_outcome_characterization [⟨":path", "/protected"⟩]).1.2
    ⟨by decide, by decide⟩
  rw [hr, (terminal_outcome_characterization [⟨":path", "/protected"⟩]).2 r hr]

/-- C2 counterexample: a payload carrying the pair x-custom/yes under
addHeaders produces no mutation at all, so the decoder does not handle
arbitrary keys. -/
theorem parseInstructions_ignores_arbitrary_addHeaders :
    strings.Contains "\x7b\"addHeaders\":\x7b\"x-custom\":\"yes\"\x7d\x7d" "\"addHeaders\"" = true ∧
    strings.Contains "\x7b\"addHeaders\":\x7b\"x-custom\":\"yes\"\x7d\x7d" "\"x-custom\":\"yes\"" = true ∧
    Main.parseInstructions "\x7b\"addHeaders\":\x7b\"x-custom\":\"yes\"\x7d\x7d" = [] := by
  decide

/-- C2 amended: the decoder recognizes exactly a fixed vocabulary of four
literal substrings; a mutation is emitted iff it is one of the four
hardcoded ones and its trigger substrings occur in the payload. -/
theorem parseInstructions_fixed_vocabulary (s : String) (m : Main.HeaderMutation) :
    m ∈ Main.parseInstructions s ↔
      ((m = Main.HeaderMutation.append ⟨"header3", "value3"⟩ ∧
          strings.Contains s "\"header3\":\"value3\"" = true) ∨
        (m = Main.HeaderMutation.append ⟨"header4", "value4"⟩ ∧
          strings.Contains s "\"header4\":\"value4\"" = true) ∨
        (m = Main.HeaderMutation.remove "header2" ∧
          strings.Contains s "\"removeHeaders\"" = true ∧
          strings.Contains s "\"header2\"" = true) ∨
        (m = Main.HeaderMutation.remove "instructions" ∧
          strings.Contains s "\"removeHeaders\"" = true ∧
          strings.Contains s "\"instructions\"" = true)) := by
  unfold Main.parseInstructions
  by_cases c1 : strings.Contains s "\"header3\":\"value3\"" = true <;>
  by_cases c2 : strings.Contains s "\"header4\":\"value4\"" = true <;>
  by_cases c3 : strings.Contains s "\"removeHeaders\"" = true <;>
  by_cases c4 : strings.Contains s "\"header2\"" = true <;>
  by_cases c5 : strings.Contains s "\"instructions\"" = true <;>
  simp [c1, c2, c3, c4, c5]

theorem parseInstructions_fixed_vocabulary_witness :
    Main.HeaderMutation.remove "header2" ∈
      Main.parseInstructions "\"removeHeaders\" \"header2\"" :=
  (parseInstructions_fixed_vocabulary _ _).mpr
    (Or.inr (Or.inr (Or.inl ⟨rfl, by decide, by decide⟩)))

/-- C3: whenever the security gate does not fire, the continue outcome
carries, in this exact order, the stamp, then the x-api-version append when
the path contains "/api/v1", then the x-admin-access append when the path
contains "/admin", then the decoder output when a non-empty payload was
captured, and nothing else. -/
theorem continue_mutation_order (hs : List HeaderValue)
    (hgate : ¬(strings.Contains (Main.extractHeaders hs).requestPath "/protected" = true ∧
      (Main.extractHeaders hs).hasAuth = false)) :
    Main.processRequestHeaders hs =
      Main.ProcessingResponse.requestHeaders Main.CommonStatus.CONTINUE
        ([Main.stampMutation] ++
          (if strings.Contains (Main.extractHeaders hs).requestPath "/api/v1" then
            [Main.HeaderMutation.append ⟨"x-api-version", "v1"⟩] else []) ++
          (if strings.Contains (Main.extractHeaders hs).requestPath "/admin" then
            [Main.HeaderMutation.append ⟨"x-admin-access", "true"⟩] else []) ++
          (if (Main.extractHeaders hs).instructionsValue ≠ "" then
            Main.parseInstructions (Main.extractHeaders hs).instructionsValue else [])) := by
  rw [Main.processRequestHeaders_normal]
  cases hp : strings.Contains (Main.extractHeaders hs).requestPath "/protected" <;>
  cases hb : (Main.extractHeaders hs).hasAuth <;>
  simp_all

theorem continue_mutation_order_witness :
    Main.processRequestHeaders [⟨":path", "/admin/x/api/v1"⟩] =
      Main.ProcessingResponse.requestHeaders Main.CommonStatus.CONTINUE
        [Main.stampMutation, Main.HeaderMutation.append ⟨"x-api-version", "v1"⟩,
          Main.HeaderMutation.append ⟨"x-admin-access", "true"⟩] := by
  rw [continue_mutation_order [⟨":path", "/admin/x/api/v1"⟩] (by decide)]
  decide

/-- C4 counterexample: the dispatcher of part_000 sends no response at all
for a non-header event, instead of exactly one. -/
theorem part0_silent_on_nonheader_event :
    Part0.processStream [Main.ProcessingRequest.requestBody] = [] := rfl

/-- C4 amended: the dispatcher of main.go answers every event with exactly
one response, in order, and every non-header event gets the fixed
status-100 immediate response without the pipeline running; the dispatcher
of part_000 instead produces no response for non-header events. -/
theorem main_dispatch_one_response_per_event (reqs : List Main.ProcessingRequest) :
    (Main.processStream reqs).length = reqs.length ∧
    (∀ i : Nat, (Main.processStream reqs)[i]? = (reqs[i]?).map Main.respond) ∧
    (∀ req : Main.ProcessingRequest,
      (∀ hs, req ≠ Main.ProcessingRequest.requestHeaders hs) →
        Main.respond req = Main.defaultContinueResponse ∧ Part0.respondOpt req = none) := by
  refine ⟨?_, ?_, ?_⟩
  · rw [Main.processStream_eq_map]; simp
  · intro i; rw [Main.processStream_eq_map]; simp [List.getElem?_map]
  · intro req hreq
    cases req
    case requestHeaders hs => exact absurd rfl (hreq hs)
    all_goals exact ⟨rfl, rfl⟩

theorem main_dispatch_one_response_per_event_witness :
    Main.respond Main.ProcessingRequest.requestBody = Main.defaultContinueResponse ∧
    Part0.respondOpt Main.ProcessingRequest.requestBody = none :=
  (main_dispatch_one_response_per_event []).2.2 Main.ProcessingRequest.requestBody
    (fun _ h => Main.ProcessingRequest.noConfusion h)

/-- C5 counterexample: on a request that already carries x-processed-by,
the stamp of part_000 is a SetHeaders entry with
OVERWRITE_IF_EXISTS_OR_ADD, an overwrite/set operation, not an append. -/
theorem part0_stamp_is_overwrite :
    Part0.addProcessedByHeader [⟨"x-processed-by", "already-here"⟩] =
      Part0.ProcessingResponse.requestHeaders
        ⟨[⟨⟨"x-processed-by", "ext-proc-go-server"⟩,
          Part0.AppendAction.OVERWRITE_IF_EXISTS_OR_ADD⟩]⟩ := rfl

/-- C5 amended: in main.go every continue outcome starts with the fixed
stamp emitted as an append mutation (the mutation type of main.go has no
overwrite form at all), while part_000 emits its stamp as a single
SetHeaders entry with OVERWRITE_IF_EXISTS_OR_ADD, which does replace a
pre-existing same-named header. -/
theorem stamp_append_main_overwrite_part0 (hs : List HeaderValue) :
    (∀ st ms, Main.processRequestHeaders hs = Main.ProcessingResponse.requestHeaders st ms →
      ∃ rest, ms = Main.stampMutation :: rest) ∧
    Part0.addProcessedByHeader hs =
      Part0.ProcessingResponse.requestHeaders
        ⟨[⟨⟨"x-processed-by", "ext-proc-go-server"⟩,
          Part0.AppendAction.OVERWRITE_IF_EXISTS_OR_ADD⟩]⟩ := by
  constructor
  · intro st ms h
    rw [Main.processRequestHeaders_normal] at h
    by_cases hg : (strings.Contains (Main.extractHeaders hs).requestPath "/protected" &&
        !(Main.extractHeaders hs).hasAuth) = true
    · rw [if_pos hg] at h
      exact absurd h (by simp)
    · rw [if_neg hg] at h
      injection h with h1 h2
      exact ⟨_, by rw [← h2, List.singleton_append, List.cons_append, List.cons_append]⟩
  · rfl

theorem stamp_append_main_overwrite_part0_witness :
    ∃ rest, [Main.stampMutation] = Main.stampMutation :: rest :=
  (stamp_append_main_overwrite_part0 []).1 Main.CommonStatus.CONTINUE
    [Main.stampMutation] (by decide)

/-- C6: the extraction pass captures, for the instructions payload and the
path, the value of the last header in sequence order whose lowercased key
matches, and for authorization the presence of any matching header (the
last occurrence also being the one that leaves the flag set). -/
theorem extraction_last_occurrence_wins (hs : List HeaderValue) :
    Main.extractHeaders hs =
      ⟨lastValueOf "instructions" hs, lastValueOf ":path" hs,
        hasKeyCI "authorization" hs⟩ :=
  Main.extractHeaders_spec hs

/-- C7: the decoder is a total function returning a plain mutation list (it
has no error outcome to propagate), it returns zero mutations on the empty
payload, and a request whose captured payload decodes to zero mutations
produces the same outcome as the same request captured with no directive
payload at all. -/
theorem empty_or_unrecognized_directive_noop (hs hs2 : List HeaderValue)
    (hpath : (Main.extractHeaders hs).requestPath = (Main.extractHeaders hs2).requestPath)
    (hauth : (Main.extractHeaders hs).hasAuth = (Main.extractHeaders hs2).hasAuth)
    (hdec : Main.parseInstructions (Main.extractHeaders hs).instructionsValue = [])
    (hnone : (Main.extractHeaders hs2).instructionsValue = "") :
    Main.parseInstructions "" = [] ∧
    Main.processRequestHeaders hs = Main.processRequestHeaders hs2 := by
  refine ⟨by decide, ?_⟩
  rw [Main.processRequestHeaders_normal, Main.processRequestHeaders_normal, hpath, hauth]
  by_cases hz : (Main.extractHeaders hs).instructionsValue = ""
  · simp [hz, hnone]
  · simp [hz, hnone, hdec]

theorem empty_or_unrecognized_directive_noop_witness :
    Main.parseInstructions "" = [] ∧
    Main.processRequestHeaders [⟨":path", "/a"⟩, ⟨"instructions", "zzz"⟩] =
      Main.processRequestHeaders [⟨":path", "/a"⟩] :=
  empty_or_unrecognized_directive_noop _ _ (by decide) (by decide) (by decide) (by decide)

/-- C8: the response to a request-headers event is a pure function of the
header sequence alone: any two occurrences of the same header sequence, at
any positions of any two event streams, receive identical responses, namely
the pipeline value on that sequence. -/
theorem pipeline_deterministic_across_streams (es1 es2 : List Main.ProcessingRequest)
    (i j : Nat) (hs : List HeaderValue)
    (h1 : es1[i]? = some (Main.ProcessingRequest.requestHeaders hs))
    (h2 : es2[j]? = some (Main.ProcessingRequest.requestHeaders hs)) :
    (Main.processStream es1)[i]? = (Main.processStream es2)[j]? ∧
    (Main.processStream es1)[i]? = some (Main.processRequestHeaders hs) := by
  rw [Main.processStream_eq_map, Main.processStream_eq_map,
    List.getElem?_map, List.getElem?_map, h1, h2]
  exact ⟨rfl, rfl⟩

theorem pipeline_deterministic_across_streams_witness :
    (Main.processStream [Main.ProcessingRequest.requestBody,
        Main.ProcessingRequest.requestHeaders [⟨":path", "/x"⟩]])[1]? =
      (Main.processStream [Main.ProcessingRequest.requestHeaders [⟨":path", "/x"⟩]])[0]? ∧
    (Main.processStream [Main.ProcessingRequest.requestBody,
        Main.ProcessingRequest.requestHeaders [⟨":path", "/x"⟩]])[1]? =
      some (Main.processRequestHeaders [⟨":path", "/x"⟩]) :=
  pipeline_deterministic_across_streams _ _ 1 0 [⟨":path", "/x"⟩] (by decide) (by decide)

/-- C9: the authorization capture holds iff some header of the sequence has
the key authorization up to lowercasing, whatever its value (the value is
not part of the condition), and any sequence with such a header always
gets a continue outcome, never the terminal one. -/
theorem authorization_by_key_only (hs : List HeaderValue) :
    ((Main.extractHeaders hs).hasAuth = true ↔
      ∃ h ∈ hs, strings.ToLower h.key = "authorization") ∧
    ((∃ h ∈ hs, strings.ToLower h.key = "authorization") →
      ∃ ms, Main.processRequestHeaders hs =
        Main.ProcessingResponse.requestHeaders Main.CommonStatus.CONTINUE ms) := by
  have hA : (Main.extractHeaders hs).hasAuth = hasKeyCI "authorization" hs := by
    rw [Main.extractHeaders_spec]
  have hiff : (Main.extractHeaders hs).hasAuth = true ↔
      ∃ h ∈ hs, strings.ToLower h.key = "authorization" := by
    rw [hA]
    simp [hasKeyCI, List.any_eq_true]
  refine ⟨hiff, fun hex => ?_⟩
  have hAuth : (Main.extractHeaders hs).hasAuth = true := hiff.mpr hex
  rw [Main.processRequestHeaders_normal]
  simp only [hAuth, Bool.not_true, Bool.and_false, Bool.false_eq_true, if_false]
  exact ⟨_, rfl⟩

theorem authorization_by_key_only_witness :
    ∃ ms, Main.processRequestHeaders [⟨":path", "/protected"⟩, ⟨"Authorization", ""⟩] =
      Main.ProcessingResponse.requestHeaders Main.CommonStatus.CONTINUE ms :=
  (authorization_by_key_only _).2 ⟨⟨"Authorization", ""⟩, by decide, by decide⟩

/-- C10: the three path checks are case-sensitive substring tests: when the
captured path contains an uppercase variant of a trigger but none of the
lowercase triggers themselves, the gate does not fire and neither
conditional append is emitted, so the outcome is the continue response
whose mutations are just the stamp plus any decoder output. -/
theorem path_checks_case_sensitive (hs : List HeaderValue)
    (_hupper : strings.Contains (Main.extractHeaders hs).requestPath "/PROTECTED" = true ∨
      strings.Contains (Main.extractHeaders hs).requestPath "/Api/V1" = true ∨
      strings.Contains (Main.extractHeaders hs).requestPath "/ADMIN" = true)
    (hprot : strings.Contains (Main.extractHeaders hs).requestPath "/protected" = false)
    (hapi : strings.Contains (Main.extractHeaders hs).requestPath "/api/v1" = false)
    (hadmin : strings.Contains (Main.extractHeaders hs).requestPath "/admin" = false) :
    Main.processRequestHeaders hs =
      Main.ProcessingResponse.requestHeaders Main.CommonStatus.CONTINUE
        ([Main.stampMutation] ++
          (if (Main.extractHeaders hs).instructionsValue ≠ "" then
            Main.parseInstructions (Main.extractHeaders hs).instructionsValue else [])) := by
  rw [Main.processRequestHeaders_normal]
  simp [hprot, hapi, hadmin]

theorem path_checks_case_sensitive_witness :
    Main.processRequestHeaders [⟨":path", "/PROTECTED/Api/V1/ADMIN"⟩] =
      Main.ProcessingResponse.requestHeaders Main.CommonStatus.CONTINUE
        [Main.stampMutation] := by
  rw [path_checks_case_sensitive [⟨":path", "/PROTECTED/Api/V1/ADMIN"⟩]
    (Or.inl (by decide)) (by decide) (by decide) (by decide)]
  decide
